import Mathlib

/-!
Shallow embedding of the `management` app of the company_mgmt repository
(`models.py`, `forms.py`, `views.py`, `urls.py`).

The app is a three-entity CRUD pipeline (Company → Unit → Employee) built on
Django model forms.  The embedding translates, from the source:

* the three model classes with their fields and constraints
  (`Company.name` unique, `Employee.email` unique, cascading foreign keys);
* the three `ModelForm`s together with the framework validation they invoke
  when `is_valid()` runs: per-field cleaning (whitespace stripping as done by
  `forms.CharField(strip=True)`, the required-value check, the max-length
  validator, the email validator, choice-field resolution against existing
  rows) followed by the model uniqueness pre-check that excludes the instance
  being edited;
* the storage layer's behaviour at commit time (`save`): uniqueness
  constraints raising an integrity error, insertion with a fresh
  auto-incremented id, in-place update, and `on_delete=CASCADE` deletion;
* the three edit views, including the Python truthiness test
  `get_object_or_404(Company, pk=pk) if pk else None` and the absence of any
  exception handler around `form.save()`.

Framework behaviour is modelled at the boundary the source exercises;
abstractions (the exact email grammar, Unicode white-space classes beyond
ASCII, integer parsing of choice values) are noted on the definitions.
-/

namespace CompanyMgmt

/-- Field-level validation errors, in the spec's taxonomy (§7).  Each carries
the name of the field it annotates. -/
inductive FieldError where
  | RequiredFieldMissing (field : String)
  | FieldTooLong (field : String) (maxLength : Nat)
  | InvalidFormat (field : String)
  | DuplicateValue (field : String)
  | ReferenceNotFound (field : String)
deriving DecidableEq

/-- Decidable equality for cleaning outcomes (used to evaluate the embedding
on concrete inputs). -/
instance exceptDecEq {ε α : Type} [DecidableEq ε] [DecidableEq α] :
    DecidableEq (Except ε α) := fun a b =>
  match a, b with
  | .ok x, .ok y =>
      if h : x = y then .isTrue (by rw [h])
      else .isFalse (by intro hc; cases hc; exact h rfl)
  | .error x, .error y =>
      if h : x = y then .isTrue (by rw [h])
      else .isFalse (by intro hc; cases hc; exact h rfl)
  | .ok _, .error _ => .isFalse (by intro hc; cases hc)
  | .error _, .ok _ => .isFalse (by intro hc; cases hc)

/-- White-space predicate of Python's `str.strip()`, restricted to the ASCII
white-space characters (the Unicode space code points Python additionally
strips are abstracted away; all inputs in this development are covered). -/
def pyIsSpace (c : Char) : Bool :=
  c = ' ' || c = '\t' || c = '\n' || c = '\x0b' || c = '\x0c' || c = '\r'

/-- Python's `str.strip()`: drop leading and trailing white-space.  Django's
`forms.CharField` applies this to every submitted text value because its
`strip` flag defaults to `True`; the model forms in `forms.py` never disable
it. -/
def strip (s : String) : String :=
  String.mk (((s.data.dropWhile pyIsSpace).reverse.dropWhile pyIsSpace).reverse)

/-- The raw value a bound Django form sees for a field: the submitted string,
or `""` when the key is absent from the POST data. -/
def rawValue (o : Option String) : String := o.getD ""

/-- Submitted value after Django's `CharField.to_python` (missing key → `""`,
then strip). -/
def stripD (o : Option String) : String := strip (rawValue o)

/-- Decimal parsing of a choice-field value (the primary-key coercion Django
performs in `ModelChoiceField.to_python`; tolerance for signs and surrounding
white-space in Python's `int()` is abstracted away). -/
def parseNat? (s : String) : Option Nat :=
  if s ≠ "" && s.data.all Char.isDigit then
    some (s.data.foldl (fun n c => 10 * n + (c.toNat - 48)) 0)
  else none

/-- Split a character list at every occurrence of `sep` (the accumulator holds
the current chunk reversed). -/
def splitOnAt (sep : Char) : List Char → List Char → List (List Char)
  | [], acc => [acc.reverse]
  | c :: cs, acc =>
      if c = sep then acc.reverse :: splitOnAt sep cs []
      else splitOnAt sep cs (c :: acc)

/-- Simplified model of Django's `EmailValidator`: exactly one `@`, non-empty
local part, and a dotted domain that neither starts nor ends with a dot, with
no white-space anywhere.  (The full framework grammar — quoted local parts,
IDNA domains, the literal-IP form — is abstracted; every email exercised in
this development is plainly valid or plainly invalid under both.) -/
def validEmail (s : String) : Bool :=
  match splitOnAt '@' s.data [] with
  | [localPart, domain] =>
      !localPart.isEmpty && !domain.isEmpty &&
      domain.contains '.' &&
      domain.head? != some '.' && domain.getLast? != some '.' &&
      s.data.all (fun c => !pyIsSpace c)
  | _ => false

/-- `models.Company`: `name = CharField(max_length=255, unique=True)`,
`address = TextField(blank=True, null=True)` (an empty submitted address is
stored as the empty string). -/
structure Company where
  id : Nat
  name : String
  address : String
deriving DecidableEq

/-- `models.Unit`: `name = CharField(max_length=255)`,
`company = ForeignKey(Company, on_delete=CASCADE)`; `company_id` is the
stored foreign-key column. -/
structure Unit where
  id : Nat
  name : String
  company_id : Nat
deriving DecidableEq

/-- `models.Employee`: two `CharField(max_length=255)` names,
`email = EmailField(unique=True)` (default `max_length=254`), and
`unit = ForeignKey(Unit, on_delete=CASCADE)`; `unit_id` is the stored
foreign-key column. -/
structure Employee where
  id : Nat
  first_name : String
  last_name : String
  email : String
  unit_id : Nat
deriving DecidableEq

/-- The relational store: the three tables plus the auto-increment counters
used for newly inserted rows (the numeric identifiers the spec's §3 calls
system-assigned; they start at 1). -/
structure DB where
  companies : List Company
  units : List Unit
  employees : List Employee
  nextCompanyId : Nat
  nextUnitId : Nat
  nextEmployeeId : Nat
deriving DecidableEq

/-- The store of a freshly migrated deployment: empty tables, identifiers
starting at 1. -/
def DB.empty : DB := ⟨[], [], [], 1, 1, 1⟩

/-- `Company.__str__`: the company's name. -/
def Company.str (c : Company) : String := c.name

/-- Resolve a company id to its row's name (the attribute access
`self.company.name`; dangling references cannot occur in reachable states). -/
def companyNameOf (db : DB) (i : Nat) : String :=
  ((db.companies.find? (fun c => c.id == i)).map Company.name).getD ""

/-- `Unit.__str__`: `f"{self.name} ({self.company.name})"`, with the foreign
key resolved against the store. -/
def Unit.str (db : DB) (u : Unit) : String :=
  u.name ++ " (" ++ companyNameOf db u.company_id ++ ")"

/-- `Employee.__str__`: `f"{self.first_name} {self.last_name}"`. -/
def Employee.str (e : Employee) : String :=
  e.first_name ++ " " ++ e.last_name

/-- Cleaning of a required `forms.CharField` with a max length, as run by
`is_valid()`: strip, reject the empty result as required-missing, reject a
result longer than `maxLength` code points (Python `len` counts code points);
otherwise the stripped value is the cleaned value — never truncated. -/
def cleanCharField (field : String) (maxLength : Nat) (raw : Option String) :
    Except (List FieldError) String :=
  let v := stripD raw
  if v = "" then .error [.RequiredFieldMissing field]
  else if maxLength < v.length then .error [.FieldTooLong field maxLength]
  else .ok v

/-- Cleaning of the optional `address` text area (`blank=True`, no max
length): strip; an empty result is allowed and stored as `""`. -/
def cleanOptionalText (raw : Option String) : String := stripD raw

/-- Cleaning of `Employee.email` (`forms.EmailField`, required,
`max_length=254`): strip, required check, then both the max-length and the
format validator run and their errors are collected together. -/
def cleanEmailField (raw : Option String) : Except (List FieldError) String :=
  let v := stripD raw
  if v = "" then .error [.RequiredFieldMissing "email"]
  else
    let lengthErrs : List FieldError :=
      if 254 < v.length then [.FieldTooLong "email" 254] else []
    let formatErrs : List FieldError :=
      if validEmail v then [] else [.InvalidFormat "email"]
    match lengthErrs ++ formatErrs with
    | [] => .ok v
    | es => .error es

/-- Cleaning of `UnitForm`'s `company` choice field: empty or missing is
required-missing; otherwise the value must parse as a pk of an existing
Company row, else the invalid-choice error (the spec's `ReferenceNotFound`). -/
def cleanCompanyChoice (db : DB) (raw : Option String) :
    Except (List FieldError) Nat :=
  let v := rawValue raw
  if v = "" then .error [.RequiredFieldMissing "company"]
  else
    match parseNat? v with
    | some n =>
        if db.companies.any (fun c => c.id == n) then .ok n
        else .error [.ReferenceNotFound "company"]
    | none => .error [.ReferenceNotFound "company"]

/-- Cleaning of `EmployeeForm`'s `unit` choice field, against the Unit
table. -/
def cleanUnitChoice (db : DB) (raw : Option String) :
    Except (List FieldError) Nat :=
  let v := rawValue raw
  if v = "" then .error [.RequiredFieldMissing "unit"]
  else
    match parseNat? v with
    | some n =>
        if db.units.any (fun u => u.id == n) then .ok n
        else .error [.ReferenceNotFound "unit"]
    | none => .error [.ReferenceNotFound "unit"]

/-- Does another Company row (a row whose pk differs from `excludePk`) already
carry this name?  This is the query `Model.validate_unique` runs for the
unique `name` column, excluding the instance being edited, and also the
uniqueness condition the storage constraint enforces at commit time. -/
def companyNameConflict (db : DB) (excludePk : Option Nat) (n : String) : Bool :=
  db.companies.any (fun c => c.name == n && excludePk != some c.id)

/-- The analogous query for the unique `Employee.email` column. -/
def employeeEmailConflict (db : DB) (excludePk : Option Nat) (e : String) : Bool :=
  db.employees.any (fun x => x.email == e && excludePk != some x.id)

/-- POST payload of `CompanyForm` (`fields = ['name', 'address']`); `none`
models a key absent from the request body. -/
structure CompanyPost where
  name : Option String
  address : Option String
deriving DecidableEq

/-- POST payload of `UnitForm` (`fields = ['name', 'company']`); the choice
value is submitted as a string. -/
structure UnitPost where
  name : Option String
  company : Option String
deriving DecidableEq

/-- POST payload of `EmployeeForm`
(`fields = ['first_name', 'last_name', 'email', 'unit']`). -/
structure EmployeePost where
  first_name : Option String
  last_name : Option String
  email : Option String
  unit : Option String
deriving DecidableEq

/-- Cleaned data of a valid `CompanyForm`. -/
structure CompanyCleaned where
  name : String
  address : String
deriving DecidableEq

/-- Cleaned data of a valid `UnitForm`. -/
structure UnitCleaned where
  name : String
  company_id : Nat
deriving DecidableEq

/-- Cleaned data of a valid `EmployeeForm`. -/
structure EmployeeCleaned where
  first_name : String
  last_name : String
  email : String
  unit_id : Nat
deriving DecidableEq

/-- The error list of a cleaning outcome (empty on success). -/
def errsOf {α : Type} : Except (List FieldError) α → List FieldError
  | .ok _ => []
  | .error es => es

/-- `CompanyForm.is_valid()` on submitted data bound to `inst` (the instance
being edited, or `none` on create): clean each declared field, then run the
model uniqueness pre-check on `name` — excluding `inst` itself — exactly when
the `name` field itself cleaned without error. -/
def company_validate (db : DB) (inst : Option Company) (post : CompanyPost) :
    Except (List FieldError) CompanyCleaned :=
  let address := cleanOptionalText post.address
  match cleanCharField "name" 255 post.name with
  | .error es => .error es
  | .ok n =>
      if companyNameConflict db (inst.map Company.id) n then
        .error [.DuplicateValue "name"]
      else .ok ⟨n, address⟩

/-- `UnitForm.is_valid()`: both fields are cleaned and every error of every
violated field is collected (field order `name`, `company`). -/
def unit_validate (db : DB) (_inst : Option Unit) (post : UnitPost) :
    Except (List FieldError) UnitCleaned :=
  match cleanCharField "name" 255 post.name,
        cleanCompanyChoice db post.company with
  | .ok n, .ok cid => .ok ⟨n, cid⟩
  | n?, c? => .error (errsOf n? ++ errsOf c?)

/-- `EmployeeForm.is_valid()`: the four declared fields are cleaned in order
and all their errors collected; the model uniqueness pre-check on `email`
(excluding the instance being edited) runs exactly when the `email` field
itself cleaned without error, and its error is appended. -/
def employee_validate (db : DB) (inst : Option Employee) (post : EmployeePost) :
    Except (List FieldError) EmployeeCleaned :=
  let fn := cleanCharField "first_name" 255 post.first_name
  let ln := cleanCharField "last_name" 255 post.last_name
  let em := cleanEmailField post.email
  let un := cleanUnitChoice db post.unit
  let uniq : List FieldError :=
    match em with
    | .ok e =>
        if employeeEmailConflict db (inst.map Employee.id) e then
          [.DuplicateValue "email"]
        else []
    | .error _ => []
  match fn, ln, em, un with
  | .ok a, .ok b, .ok e, .ok u =>
      if uniq.isEmpty then .ok ⟨a, b, e, u⟩ else .error uniq
  | n?, l?, e?, u? =>
      .error (errsOf n? ++ errsOf l? ++ errsOf e? ++ errsOf u? ++ uniq)

/-- The storage-level uniqueness failure (`django.db.IntegrityError`, the
spec's `ConstraintViolation`), carrying the constrained column. -/
structure IntegrityError where
  field : String
deriving DecidableEq

/-- `form.save()` for a Company: the store enforces the unique `name`
constraint (excluding the row being updated); on success a create appends a
row under the fresh auto-increment id, an edit updates the instance's row in
place. -/
def company_save (db : DB) (inst : Option Company) (v : CompanyCleaned) :
    Except IntegrityError DB :=
  match inst with
  | none =>
      if companyNameConflict db none v.name then .error ⟨"name"⟩
      else .ok { db with
        companies := db.companies ++ [⟨db.nextCompanyId, v.name, v.address⟩],
        nextCompanyId := db.nextCompanyId + 1 }
  | some c =>
      if companyNameConflict db (some c.id) v.name then .error ⟨"name"⟩
      else .ok { db with
        companies := db.companies.map
          (fun c0 => if c0.id = c.id then ⟨c0.id, v.name, v.address⟩ else c0) }

/-- `form.save()` for a Unit: no uniqueness constraint on units, so the write
always succeeds (the foreign key was resolved during validation). -/
def unit_save (db : DB) (inst : Option Unit) (v : UnitCleaned) : DB :=
  match inst with
  | none =>
      { db with
        units := db.units ++ [⟨db.nextUnitId, v.name, v.company_id⟩],
        nextUnitId := db.nextUnitId + 1 }
  | some u =>
      { db with
        units := db.units.map
          (fun u0 => if u0.id = u.id then ⟨u0.id, v.name, v.company_id⟩ else u0) }

/-- `form.save()` for an Employee: the store enforces the unique `email`
constraint (excluding the row being updated). -/
def employee_save (db : DB) (inst : Option Employee) (v : EmployeeCleaned) :
    Except IntegrityError DB :=
  match inst with
  | none =>
      if employeeEmailConflict db none v.email then .error ⟨"email"⟩
      else .ok { db with
        employees := db.employees ++
          [⟨db.nextEmployeeId, v.first_name, v.last_name, v.email, v.unit_id⟩],
        nextEmployeeId := db.nextEmployeeId + 1 }
  | some e =>
      if employeeEmailConflict db (some e.id) v.email then .error ⟨"email"⟩
      else .ok { db with
        employees := db.employees.map
          (fun e0 => if e0.id = e.id then
            ⟨e0.id, v.first_name, v.last_name, v.email, v.unit_id⟩ else e0) }

/-- Storage-level deletion of a Company (`on_delete=CASCADE`): the row goes,
every Unit owned by it goes, and every Employee whose unit is one of those
deleted Units goes transitively.  No UI route exposes this; it is the
collaborator operation of §6. -/
def company_delete (db : DB) (pk : Nat) : DB :=
  { db with
    companies := db.companies.filter (fun c => c.id != pk),
    units := db.units.filter (fun u => u.company_id != pk),
    employees := db.employees.filter
      (fun e => !(db.units.any (fun u => u.id == e.unit_id && u.company_id == pk))) }

/-- Storage-level deletion of a Unit: its Employees cascade. -/
def unit_delete (db : DB) (pk : Nat) : DB :=
  { db with
    units := db.units.filter (fun u => u.id != pk),
    employees := db.employees.filter (fun e => e.unit_id != pk) }

/-- Storage-level deletion of an Employee. -/
def employee_delete (db : DB) (pk : Nat) : DB :=
  { db with employees := db.employees.filter (fun e => e.id != pk) }

/-- HTTP request methods the views distinguish (`request.method == 'POST'`). -/
inductive Method where
  | GET
  | POST
deriving DecidableEq

/-- What a rendered form carries into the template: per-field displayed
values, the field errors, and the bound instance's pk (`form.instance.pk`,
which the template's heading logic reads — `none` renders the "New X"
heading). -/
structure BoundForm where
  fields : List (String × String)
  errors : List FieldError
  instancePk : Option Nat
deriving DecidableEq

/-- Responses the views produce: a 404 from `get_object_or_404`, a 302
redirect to a named list route, a 200 render of a template with a form, or an
uncaught storage exception surfacing as a server error. -/
inductive HttpResponse where
  | NotFound
  | Redirect (routeName : String)
  | Render (template : String) (form : BoundForm)
  | ServerError (e : IntegrityError)
deriving DecidableEq

/-- The exception `get_object_or_404` raises when the lookup misses. -/
inductive Http404 where
  | mk
deriving DecidableEq

/-- `company = get_object_or_404(Company, pk=pk) if pk else None`.  The
condition is Python truthiness of `pk`: both `None` and `0` select the
no-instance branch; only a non-zero pk triggers the lookup, which raises
`Http404` when no row matches. -/
def lookupCompany (db : DB) (pk : Option Nat) : Except Http404 (Option Company) :=
  match pk with
  | none => .ok none
  | some n =>
      if n = 0 then .ok none
      else
        match db.companies.find? (fun c => c.id == n) with
        | some c => .ok (some c)
        | none => .error .mk

/-- `unit = get_object_or_404(Unit, pk=pk) if pk else None`. -/
def lookupUnit (db : DB) (pk : Option Nat) : Except Http404 (Option Unit) :=
  match pk with
  | none => .ok none
  | some n =>
      if n = 0 then .ok none
      else
        match db.units.find? (fun u => u.id == n) with
        | some u => .ok (some u)
        | none => .error .mk

/-- `employee = get_object_or_404(Employee, pk=pk) if pk else None`. -/
def lookupEmployee (db : DB) (pk : Option Nat) : Except Http404 (Option Employee) :=
  match pk with
  | none => .ok none
  | some n =>
      if n = 0 then .ok none
      else
        match db.employees.find? (fun e => e.id == n) with
        | some e => .ok (some e)
        | none => .error .mk

/-- The bound `CompanyForm` a failed POST re-renders: each widget redisplays
the raw submitted value (missing keys as empty), with the collected errors
attached. -/
def boundCompanyForm (inst : Option Company) (post : CompanyPost)
    (errors : List FieldError) : BoundForm :=
  { fields := [("name", rawValue post.name), ("address", rawValue post.address)],
    errors := errors,
    instancePk := inst.map Company.id }

/-- The unbound `CompanyForm` a GET renders: field values come from the
instance being edited, or are empty for a new instance. -/
def companyFormOf (inst : Option Company) : BoundForm :=
  { fields := [("name", ((inst.map Company.name).getD "")),
               ("address", ((inst.map Company.address).getD ""))],
    errors := [],
    instancePk := inst.map Company.id }

/-- The bound `UnitForm` of a failed POST. -/
def boundUnitForm (inst : Option Unit) (post : UnitPost)
    (errors : List FieldError) : BoundForm :=
  { fields := [("name", rawValue post.name), ("company", rawValue post.company)],
    errors := errors,
    instancePk := inst.map Unit.id }

/-- The unbound `UnitForm` of a GET. -/
def unitFormOf (inst : Option Unit) : BoundForm :=
  { fields := [("name", ((inst.map Unit.name).getD "")),
               ("company", ((inst.map (fun u => toString u.company_id)).getD ""))],
    errors := [],
    instancePk := inst.map Unit.id }

/-- The bound `EmployeeForm` of a failed POST. -/
def boundEmployeeForm (inst : Option Employee) (post : EmployeePost)
    (errors : List FieldError) : BoundForm :=
  { fields := [("first_name", rawValue post.first_name),
               ("last_name", rawValue post.last_name),
               ("email", rawValue post.email),
               ("unit", rawValue post.unit)],
    errors := errors,
    instancePk := inst.map Employee.id }

/-- The unbound `EmployeeForm` of a GET. -/
def employeeFormOf (inst : Option Employee) : BoundForm :=
  { fields := [("first_name", ((inst.map Employee.first_name).getD "")),
               ("last_name", ((inst.map Employee.last_name).getD "")),
               ("email", ((inst.map Employee.email).getD "")),
               ("unit", ((inst.map (fun e => toString e.unit_id)).getD ""))],
    errors := [],
    instancePk := inst.map Employee.id }

/-- `views.company_edit`.  `db` is the store snapshot the request reads
(instance lookup and `is_valid()`, including the uniqueness pre-check); `dbc`
is the authoritative store at the moment `form.save()` commits.  A concurrent
writer may have changed the store in between (spec §5), so `dbc` may differ
from `db`; a race-free request has `dbc = db`, and every sequential theorem
below passes the same store twice.  The view wraps nothing in an exception
handler, so a storage integrity error at commit time escapes as a server
error. -/
def company_edit (db dbc : DB) (pk : Option Nat) (m : Method)
    (post : CompanyPost) : HttpResponse × DB :=
  match lookupCompany db pk with
  | .error _ => (.NotFound, dbc)
  | .ok inst =>
      match m with
      | .POST =>
          match company_validate db inst post with
          | .ok v =>
              match company_save dbc inst v with
              | .ok db2 => (.Redirect "company_list", db2)
              | .error e => (.ServerError e, dbc)
          | .error es =>
              (.Render "management/company_form.html"
                (boundCompanyForm inst post es), dbc)
      | .GET =>
          (.Render "management/company_form.html" (companyFormOf inst), dbc)

/-- `views.unit_edit` (same shape as `company_edit`; a unit save cannot hit a
uniqueness constraint). -/
def unit_edit (db dbc : DB) (pk : Option Nat) (m : Method)
    (post : UnitPost) : HttpResponse × DB :=
  match lookupUnit db pk with
  | .error _ => (.NotFound, dbc)
  | .ok inst =>
      match m with
      | .POST =>
          match unit_validate db inst post with
          | .ok v => (.Redirect "unit_list", unit_save dbc inst v)
          | .error es =>
              (.Render "management/unit_form.html"
                (boundUnitForm inst post es), dbc)
      | .GET =>
          (.Render "management/unit_form.html" (unitFormOf inst), dbc)

/-- `views.employee_edit`. -/
def employee_edit (db dbc : DB) (pk : Option Nat) (m : Method)
    (post : EmployeePost) : HttpResponse × DB :=
  match lookupEmployee db pk with
  | .error _ => (.NotFound, dbc)
  | .ok inst =>
      match m with
      | .POST =>
          match employee_validate db inst post with
          | .ok v =>
              match employee_save dbc inst v with
              | .ok db2 => (.Redirect "employee_list", db2)
              | .error e => (.ServerError e, dbc)
          | .error es =>
              (.Render "management/employee_form.html"
                (boundEmployeeForm inst post es), dbc)
      | .GET =>
          (.Render "management/employee_form.html" (employeeFormOf inst), dbc)

/-- Referential integrity of a store: every Unit's `company_id` resolves to an
existing Company row and every Employee's `unit_id` to an existing Unit row. -/
def refIntact (db : DB) : Prop :=
  (∀ u ∈ db.units, ∃ c ∈ db.companies, c.id = u.company_id) ∧
  (∀ e ∈ db.employees, ∃ u ∈ db.units, u.id = e.unit_id)

/-- The storage states reachable from a fresh deployment under the system's
single-request-at-a-time semantics (spec §5): any sequence of requests to the
three edit views (each request atomic, so the commit store equals the read
store) and of direct storage-layer deletions (the collaborator operation of
§6; no UI route exposes delete). -/
inductive Reachable : DB → Prop where
  | init : Reachable DB.empty
  | company_step (db : DB) (pk : Option Nat) (m : Method) (post : CompanyPost) :
      Reachable db → Reachable (company_edit db db pk m post).2
  | unit_step (db : DB) (pk : Option Nat) (m : Method) (post : UnitPost) :
      Reachable db → Reachable (unit_edit db db pk m post).2
  | employee_step (db : DB) (pk : Option Nat) (m : Method) (post : EmployeePost) :
      Reachable db → Reachable (employee_edit db db pk m post).2
  | company_del (db : DB) (pk : Nat) :
      Reachable db → Reachable (company_delete db pk)
  | unit_del (db : DB) (pk : Nat) :
      Reachable db → Reachable (unit_delete db pk)
  | employee_del (db : DB) (pk : Nat) :
      Reachable db → Reachable (employee_delete db pk)


/-! ### Helper lemmas -/

/-- Cleaning a strip-fixed, non-empty, in-bounds value succeeds with the value
itself. -/
theorem cleanCharField_ok {f : String} {n : Nat} {s : String}
    (h1 : strip s = s) (h2 : s ≠ "") (h3 : s.length ≤ n) :
    cleanCharField f n (some s) = .ok s := by
  simp [cleanCharField, stripD, rawValue, h1, h2, Nat.not_lt.mpr h3]

/-- A value that strips to empty is rejected as required-missing. -/
theorem cleanCharField_required {f : String} {n : Nat} {raw : Option String}
    (h : stripD raw = "") :
    cleanCharField f n raw = .error [.RequiredFieldMissing f] := by
  simp [cleanCharField, h]

/-- No row carries the name: the uniqueness query is negative. -/
theorem companyNameConflict_eq_false {db : DB} {pk : Option Nat} {s : String}
    (h : ∀ c ∈ db.companies, c.name = s → pk = some c.id) :
    companyNameConflict db pk s = false := by
  simp only [companyNameConflict, List.any_eq_false]
  intro c hc
  by_cases hn : c.name = s
  · simp [h c hc hn]
  · simp [hn]

/-- Some other row carries the name: the uniqueness query is positive. -/
theorem companyNameConflict_eq_true {db : DB} {pk : Option Nat} {c : Company}
    (hc : c ∈ db.companies) (h : pk ≠ some c.id) :
    companyNameConflict db pk c.name = true := by
  simp only [companyNameConflict, List.any_eq_true]
  exact ⟨c, hc, by simp [h]⟩

theorem employeeEmailConflict_eq_false {db : DB} {pk : Option Nat} {s : String}
    (h : ∀ x ∈ db.employees, x.email = s → pk = some x.id) :
    employeeEmailConflict db pk s = false := by
  simp only [employeeEmailConflict, List.any_eq_false]
  intro x hx
  by_cases hn : x.email = s
  · simp [h x hx hn]
  · simp [hn]

theorem employeeEmailConflict_eq_true {db : DB} {pk : Option Nat} {x : Employee}
    (hx : x ∈ db.employees) (h : pk ≠ some x.id) :
    employeeEmailConflict db pk x.email = true := by
  simp only [employeeEmailConflict, List.any_eq_true]
  exact ⟨x, hx, by simp [h]⟩

/-- A fresh create of a valid, conflict-free company passes validation. -/
theorem company_validate_ok {d : DB} {i : Option Company} {s : String}
    {a : Option String}
    (h1 : strip s = s) (h2 : s ≠ "") (h3 : s.length ≤ 255)
    (h4 : companyNameConflict d (i.map Company.id) s = false) :
    company_validate d i ⟨some s, a⟩ = .ok ⟨s, stripD a⟩ := by
  simp [company_validate, cleanOptionalText, cleanCharField_ok h1 h2 h3, h4]

theorem company_save_insert {d : DB} {v : CompanyCleaned}
    (h : companyNameConflict d none v.name = false) :
    company_save d none v = .ok { d with
      companies := d.companies ++ [⟨d.nextCompanyId, v.name, v.address⟩],
      nextCompanyId := d.nextCompanyId + 1 } := by
  simp [company_save, h]

theorem company_save_update {d : DB} {c : Company} {v : CompanyCleaned}
    (h : companyNameConflict d (some c.id) v.name = false) :
    company_save d (some c) v = .ok { d with
      companies := d.companies.map
        (fun c0 => if c0.id = c.id then ⟨c0.id, v.name, v.address⟩ else c0) } := by
  simp [company_save, h]

/-- A non-zero pk that matches a row resolves to that instance. -/
theorem lookupCompany_found {db : DB} {n : Nat} {c : Company}
    (h0 : n ≠ 0) (h : db.companies.find? (fun x => x.id == n) = some c) :
    lookupCompany db (some n) = .ok (some c) := by
  simp [lookupCompany, h0, h]

theorem lookupEmployee_found {db : DB} {n : Nat} {e : Employee}
    (h0 : n ≠ 0) (h : db.employees.find? (fun x => x.id == n) = some e) :
    lookupEmployee db (some n) = .ok (some e) := by
  simp [lookupEmployee, h0, h]

/-! ### C9 -/

/-- C9: the text rendering of an entity is, for a Company its name, for a
Unit the string `name ++ " (" ++ companyName ++ ")"` built from its own name
and its company's name, and for an Employee `first_name ++ " " ++ last_name`. -/
theorem str_rendering_spec :
    (∀ c : Company, Company.str c = c.name) ∧
    (∀ (db : DB) (u : Unit) (c : Company),
        db.companies.find? (fun x => x.id == u.company_id) = some c →
        Unit.str db u = u.name ++ " (" ++ c.name ++ ")") ∧
    (∀ e : Employee, Employee.str e = e.first_name ++ " " ++ e.last_name) := by
  refine ⟨fun c => rfl, fun db u c h => ?_, fun e => rfl⟩
  simp [Unit.str, companyNameOf, h]

/-- C9 witness: a concrete unit rendered against a one-company store. -/
theorem str_rendering_spec_witness :
    Unit.str ⟨[⟨1, "Acme", ""⟩], [⟨1, "HR", 1⟩], [], 2, 2, 1⟩ ⟨1, "HR", 1⟩ =
      "HR" ++ " (" ++ "Acme" ++ ")" :=
  str_rendering_spec.2.1 ⟨[⟨1, "Acme", ""⟩], [⟨1, "HR", 1⟩], [], 2, 2, 1⟩
    ⟨1, "HR", 1⟩ ⟨1, "Acme", ""⟩ (by decide)

/-! ### C10 -/

/-- C10: an edit request with identifier 0 is not a lookup: because the views
test Python truthiness of `pk`, identifier 0 selects the new-empty-instance
branch in all three views; a GET renders the new form (instance pk `none`,
hence the "New" heading) and a valid POST creates a fresh row under the next
auto-increment id, rather than returning NotFound or updating a row 0. -/
theorem pk_zero_selects_new_instance :
    (∀ (db dbc : DB) (m : Method) (post : CompanyPost),
        company_edit db dbc (some 0) m post = company_edit db dbc none m post) ∧
    (∀ (db dbc : DB) (m : Method) (post : UnitPost),
        unit_edit db dbc (some 0) m post = unit_edit db dbc none m post) ∧
    (∀ (db dbc : DB) (m : Method) (post : EmployeePost),
        employee_edit db dbc (some 0) m post = employee_edit db dbc none m post) ∧
    (∀ (db : DB) (post : CompanyPost),
        company_edit db db (some 0) .GET post =
          (.Render "management/company_form.html" (companyFormOf none), db) ∧
        (companyFormOf none).instancePk = none) ∧
    (∀ (db : DB) (s a : String),
        strip s = s → s ≠ "" → s.length ≤ 255 →
        (∀ c ∈ db.companies, c.name ≠ s) →
        company_edit db db (some 0) .POST ⟨some s, some a⟩ =
          (.Redirect "company_list",
           { db with
             companies := db.companies ++ [⟨db.nextCompanyId, s, strip a⟩],
             nextCompanyId := db.nextCompanyId + 1 })) := by
  refine ⟨fun db dbc m post => rfl, fun db dbc m post => rfl,
          fun db dbc m post => rfl, fun db post => ⟨rfl, rfl⟩,
          fun db s a h1 h2 h3 h4 => ?_⟩
  have hc : companyNameConflict db none s = false :=
    companyNameConflict_eq_false (fun c hcm hn => absurd hn (h4 c hcm))
  have hv := company_validate_ok (d := db) (i := none) (a := some a) h1 h2 h3 hc
  have hs := company_save_insert (d := db) (v := ⟨s, strip a⟩) hc
  simp [company_edit, lookupCompany, hv, hs, stripD, rawValue]

/-- C10 witness: against a one-company store, identifier 0 creates a second
company under the fresh id 2. -/
theorem pk_zero_selects_new_instance_witness :
    company_edit ⟨[⟨1, "Acme", "HQ"⟩], [], [], 2, 1, 1⟩
        ⟨[⟨1, "Acme", "HQ"⟩], [], [], 2, 1, 1⟩ (some 0) .POST ⟨some "Bmce", some "B St"⟩ =
      (.Redirect "company_list",
       ⟨[⟨1, "Acme", "HQ"⟩, ⟨2, "Bmce", "B St"⟩], [], [], 3, 1, 1⟩) :=
  pk_zero_selects_new_instance.2.2.2.2 ⟨[⟨1, "Acme", "HQ"⟩], [], [], 2, 1, 1⟩
    "Bmce" "B St" (by decide) (by decide) (by decide) (by decide)

/-! ### C4 -/

/-- C4 counterexample: the store holds only company 1, so no instance has
identifier 0; yet the edit request supplying identifier 0 does not fail with
NotFound — it renders the new-instance form (`if pk` tests truthiness, and 0
is falsy). -/
theorem notfound_on_missing_id_cx :
    company_edit ⟨[⟨1, "Acme", "HQ"⟩], [], [], 2, 1, 1⟩
        ⟨[⟨1, "Acme", "HQ"⟩], [], [], 2, 1, 1⟩ (some 0) .GET ⟨none, none⟩ =
      (.Render "management/company_form.html" (companyFormOf none),
       ⟨[⟨1, "Acme", "HQ"⟩], [], [], 2, 1, 1⟩) ∧
    (company_edit ⟨[⟨1, "Acme", "HQ"⟩], [], [], 2, 1, 1⟩
        ⟨[⟨1, "Acme", "HQ"⟩], [], [], 2, 1, 1⟩ (some 0) .GET ⟨none, none⟩).1 ≠
      HttpResponse.NotFound := by decide

/-- C4 amended: for every edit request supplying a NON-ZERO identifier, the
view looks the instance up and answers NotFound when no row matches, in all
three views; with no identifier the view operates on a new, empty instance.
(Identifier 0 is treated as if no identifier were supplied — the views test
truthiness, not presence.) -/
theorem notfound_on_missing_id :
    (∀ (db : DB) (n : Nat) (m : Method) (post : CompanyPost),
        n ≠ 0 → db.companies.find? (fun c => c.id == n) = none →
        company_edit db db (some n) m post = (.NotFound, db)) ∧
    (∀ (db : DB) (n : Nat) (m : Method) (post : UnitPost),
        n ≠ 0 → db.units.find? (fun u => u.id == n) = none →
        unit_edit db db (some n) m post = (.NotFound, db)) ∧
    (∀ (db : DB) (n : Nat) (m : Method) (post : EmployeePost),
        n ≠ 0 → db.employees.find? (fun e => e.id == n) = none →
        employee_edit db db (some n) m post = (.NotFound, db)) ∧
    (∀ (db : DB) (post : CompanyPost),
        company_edit db db none .GET post =
          (.Render "management/company_form.html" (companyFormOf none), db)) ∧
    (∀ (db : DB) (post : UnitPost),
        unit_edit db db none .GET post =
          (.Render "management/unit_form.html" (unitFormOf none), db)) ∧
    (∀ (db : DB) (post : EmployeePost),
        employee_edit db db none .GET post =
          (.Render "management/employee_form.html" (employeeFormOf none), db)) := by
  refine ⟨fun db n m post h0 h => ?_, fun db n m post h0 h => ?_,
          fun db n m post h0 h => ?_,
          fun db post => rfl, fun db post => rfl, fun db post => rfl⟩
  · simp [company_edit, lookupCompany, h0, h]
  · simp [unit_edit, lookupUnit, h0, h]
  · simp [employee_edit, lookupEmployee, h0, h]

/-- C4 witness: identifier 7 misses a one-company store in each view. -/
theorem notfound_on_missing_id_witness :
    company_edit ⟨[⟨1, "Acme", "HQ"⟩], [], [], 2, 1, 1⟩
        ⟨[⟨1, "Acme", "HQ"⟩], [], [], 2, 1, 1⟩ (some 7) .GET ⟨none, none⟩ =
      (.NotFound, ⟨[⟨1, "Acme", "HQ"⟩], [], [], 2, 1, 1⟩) :=
  notfound_on_missing_id.1 ⟨[⟨1, "Acme", "HQ"⟩], [], [], 2, 1, 1⟩ 7 .GET
    ⟨none, none⟩ (by decide) (by decide)

/-! ### C3 -/

/-- C3 counterexample: validation ran against an empty snapshot and passed;
by commit time a concurrent writer had inserted company "Acme", so the store
raises the uniqueness ConstraintViolation — and the view, which wraps
`form.save()` in no handler, surfaces a server error rather than re-rendering
the form with a DuplicateValue annotation. -/
theorem late_constraint_violation_cx :
    company_edit DB.empty ⟨[⟨1, "Acme", ""⟩], [], [], 2, 1, 1⟩ none .POST
        ⟨some "Acme", some ""⟩ =
      (.ServerError ⟨"name"⟩, ⟨[⟨1, "Acme", ""⟩], [], [], 2, 1, 1⟩) := by decide

/-- C3 amended: a storage-level ConstraintViolation arriving at commit time
after validation passed is NOT treated as a late validation failure: the
views install no exception handler around `form.save()`, so the error
propagates out of the handler as a server error (a crash), and no form with a
DuplicateValue annotation is re-rendered. -/
theorem late_constraint_violation_propagates :
    (∀ (db dbc : DB) (pk : Option Nat) (post : CompanyPost)
        (inst : Option Company) (v : CompanyCleaned) (e : IntegrityError),
        lookupCompany db pk = .ok inst →
        company_validate db inst post = .ok v →
        company_save dbc inst v = .error e →
        company_edit db dbc pk .POST post = (.ServerError e, dbc)) ∧
    (∀ (db dbc : DB) (pk : Option Nat) (post : EmployeePost)
        (inst : Option Employee) (v : EmployeeCleaned) (e : IntegrityError),
        lookupEmployee db pk = .ok inst →
        employee_validate db inst post = .ok v →
        employee_save dbc inst v = .error e →
        employee_edit db dbc pk .POST post = (.ServerError e, dbc)) := by
  constructor
  · intro db dbc pk post inst v e h1 h2 h3
    simp [company_edit, h1, h2, h3]
  · intro db dbc pk post inst v e h1 h2 h3
    simp [employee_edit, h1, h2, h3]

/-- C3 witness: the employee view crashes the same way when a concurrent
writer takes the email first. -/
theorem late_constraint_violation_propagates_witness :
    employee_edit ⟨[⟨1, "Acme", ""⟩], [⟨1, "HR", 1⟩], [], 2, 2, 1⟩
        ⟨[⟨1, "Acme", ""⟩], [⟨1, "HR", 1⟩], [⟨1, "Jane", "Doe", "jd@ex.com", 1⟩], 2, 2, 2⟩
        none .POST ⟨some "John", some "Doe", some "jd@ex.com", some "1"⟩ =
      (.ServerError ⟨"email"⟩,
       ⟨[⟨1, "Acme", ""⟩], [⟨1, "HR", 1⟩], [⟨1, "Jane", "Doe", "jd@ex.com", 1⟩], 2, 2, 2⟩) :=
  late_constraint_violation_propagates.2
    ⟨[⟨1, "Acme", ""⟩], [⟨1, "HR", 1⟩], [], 2, 2, 1⟩
    ⟨[⟨1, "Acme", ""⟩], [⟨1, "HR", 1⟩], [⟨1, "Jane", "Doe", "jd@ex.com", 1⟩], 2, 2, 2⟩
    none ⟨some "John", some "Doe", some "jd@ex.com", some "1"⟩ none
    ⟨"John", "Doe", "jd@ex.com", 1⟩ ⟨"email"⟩ (by decide) (by decide) (by decide)

/-! ### C5 -/

set_option maxRecDepth 10000 in
/-- C5 counterexample: a submitted value of length 256 = max+1 — 255 `'A'`s
followed by one space — is NOT rejected with FieldTooLong: the framework
strips trailing white-space before the length check, so it is accepted (as
the 255-long stripped value). -/
theorem field_too_long_boundary_cx :
    (String.mk (List.replicate 255 'A' ++ [' '])).length = 256 ∧
    cleanCharField "name" 255 (some (String.mk (List.replicate 255 'A' ++ [' ']))) =
      .ok (String.mk (List.replicate 255 'A')) := by decide

/-- C5 amended: length is measured in Unicode code points AFTER stripping
leading/trailing white-space.  For a value that stripping leaves unchanged:
length max+1 is rejected with FieldTooLong and length exactly max is
accepted, the accepted value returned unchanged (never truncated); the view
conjunct shows a company create rejecting a 256-code-point name with a
re-render and no persistence. -/
theorem field_too_long_boundary :
    (∀ (f s : String) (n : Nat), strip s = s → s.length = n + 1 →
        cleanCharField f n (some s) = .error [.FieldTooLong f n]) ∧
    (∀ (f s : String) (n : Nat), strip s = s → s.length = n → s ≠ "" →
        cleanCharField f n (some s) = .ok s) ∧
    (∀ (db : DB) (post : CompanyPost) (s : String),
        post.name = some s → strip s = s → s.length = 256 →
        company_edit db db none .POST post =
          (.Render "management/company_form.html"
            (boundCompanyForm none post [.FieldTooLong "name" 255]), db)) := by
  have part1 : ∀ (f s : String) (n : Nat), strip s = s → s.length = n + 1 →
      cleanCharField f n (some s) = .error [.FieldTooLong f n] := by
    intro f s n h1 h2
    have hne : s ≠ "" := by
      intro he
      rw [he] at h2
      simp at h2
    simp [cleanCharField, stripD, rawValue, h1, hne, h2, Nat.lt_succ_self]
  refine ⟨part1, fun f s n h1 h2 h3 => cleanCharField_ok h1 h3 (le_of_eq h2), ?_⟩
  intro db post s hname h1 h2
  have hclean := part1 "name" s 255 h1 h2
  simp [company_edit, lookupCompany, company_validate, hname, hclean]

set_option maxRecDepth 10000 in
/-- C5 witness: 256 `'A'`s are rejected, 255 accepted, and the company view
re-renders a 256-`'A'` name with the FieldTooLong annotation, persisting
nothing. -/
theorem field_too_long_boundary_witness :
    cleanCharField "name" 255 (some (String.mk (List.replicate 256 'A'))) =
      .error [.FieldTooLong "name" 255] ∧
    cleanCharField "name" 255 (some (String.mk (List.replicate 255 'A'))) =
      .ok (String.mk (List.replicate 255 'A')) ∧
    company_edit DB.empty DB.empty none .POST
        ⟨some (String.mk (List.replicate 256 'A')), some ""⟩ =
      (.Render "management/company_form.html"
        (boundCompanyForm none ⟨some (String.mk (List.replicate 256 'A')), some ""⟩
          [.FieldTooLong "name" 255]), DB.empty) :=
  ⟨field_too_long_boundary.1 "name" (String.mk (List.replicate 256 'A')) 255
      (by decide) (by decide),
   field_too_long_boundary.2.1 "name" (String.mk (List.replicate 255 'A')) 255
      (by decide) (by decide) (by decide),
   field_too_long_boundary.2.2 DB.empty
      ⟨some (String.mk (List.replicate 256 'A')), some ""⟩
      (String.mk (List.replicate 256 'A')) rfl (by decide) (by decide)⟩

/-! ### C8 -/

/-- C8 counterexample: the submitted name `" 测试公司"` (a leading space,
well within the length limit) is persisted as `"测试公司"` and read back
without its leading space: binding strips leading/trailing white-space, so
submit-then-render is not the identity on field values. -/
theorem unicode_round_trip_cx :
    company_edit DB.empty DB.empty none .POST ⟨some " 测试公司", some "∞ Street"⟩ =
      (.Redirect "company_list", ⟨[⟨1, "测试公司", "∞ Street"⟩], [], [], 2, 1, 1⟩) ∧
    company_edit ⟨[⟨1, "测试公司", "∞ Street"⟩], [], [], 2, 1, 1⟩
        ⟨[⟨1, "测试公司", "∞ Street"⟩], [], [], 2, 1, 1⟩ (some 1) .GET ⟨none, none⟩ =
      (.Render "management/company_form.html"
        ⟨[("name", "测试公司"), ("address", "∞ Street")], [], some 1⟩,
       ⟨[⟨1, "测试公司", "∞ Street"⟩], [], [], 2, 1, 1⟩) ∧
    (" 测试公司" : String) ≠ "测试公司" := by decide

/-- C8 amended: for every text-field value within its length limit that
stripping leaves unchanged (no leading/trailing white-space), binding is the
identity on the value — no transformation, truncation or normalization, for
any script (CJK, Arabic/RTL, combining marks, symbols such as "∞") — and,
end to end on the company form, a created name/address pair is stored
verbatim and read back exactly by the subsequent GET of the edit form. -/
theorem unicode_round_trip :
    (∀ (f : String) (n : Nat) (s : String), strip s = s → s ≠ "" → s.length ≤ n →
        cleanCharField f n (some s) = .ok s) ∧
    (∀ (db : DB) (s a : String),
        strip s = s → s ≠ "" → s.length ≤ 255 → strip a = a →
        (∀ c ∈ db.companies, c.name ≠ s) →
        (∀ c ∈ db.companies, c.id ≠ db.nextCompanyId) →
        db.nextCompanyId ≠ 0 →
        company_edit db db none .POST ⟨some s, some a⟩ =
          (.Redirect "company_list",
           { db with companies := db.companies ++ [⟨db.nextCompanyId, s, a⟩],
                     nextCompanyId := db.nextCompanyId + 1 }) ∧
        company_edit
          { db with companies := db.companies ++ [⟨db.nextCompanyId, s, a⟩],
                    nextCompanyId := db.nextCompanyId + 1 }
          { db with companies := db.companies ++ [⟨db.nextCompanyId, s, a⟩],
                    nextCompanyId := db.nextCompanyId + 1 }
          (some db.nextCompanyId) .GET ⟨none, none⟩ =
          (.Render "management/company_form.html"
            ⟨[("name", s), ("address", a)], [], some db.nextCompanyId⟩,
           { db with companies := db.companies ++ [⟨db.nextCompanyId, s, a⟩],
                     nextCompanyId := db.nextCompanyId + 1 })) := by
  refine ⟨fun f n s h1 h2 h3 => cleanCharField_ok h1 h2 h3, ?_⟩
  intro db s a h1 h2 h3 ha h4 h5 h6
  have hc : companyNameConflict db none s = false :=
    companyNameConflict_eq_false (fun c hcm hn => absurd hn (h4 c hcm))
  have hv := company_validate_ok (d := db) (i := none) (a := some a) h1 h2 h3 hc
  have hs := company_save_insert (d := db) (v := ⟨s, a⟩) hc
  constructor
  · have : stripD (some a) = a := ha
    simp [company_edit, lookupCompany, hv, this] at hs ⊢
    simp [hs]
  · have hfind : (db.companies ++ [(⟨db.nextCompanyId, s, a⟩ : Company)]).find?
        (fun c => c.id == db.nextCompanyId) = some ⟨db.nextCompanyId, s, a⟩ := by
      rw [List.find?_append]
      have hnone : db.companies.find? (fun c => c.id == db.nextCompanyId) = none := by
        rw [List.find?_eq_none]
        intro c hcm
        simp [h5 c hcm]
      simp [hnone]
    simp [company_edit, lookupCompany, h6, hfind, companyFormOf]

/-- C8 witness: a CJK name with a symbolic address is stored verbatim and
read back exactly. -/
theorem unicode_round_trip_witness :
    company_edit DB.empty DB.empty none .POST ⟨some "测试公司", some "∞ Street"⟩ =
      (.Redirect "company_list", ⟨[⟨1, "测试公司", "∞ Street"⟩], [], [], 2, 1, 1⟩) ∧
    company_edit ⟨[⟨1, "测试公司", "∞ Street"⟩], [], [], 2, 1, 1⟩
        ⟨[⟨1, "测试公司", "∞ Street"⟩], [], [], 2, 1, 1⟩ (some 1) .GET ⟨none, none⟩ =
      (.Render "management/company_form.html"
        ⟨[("name", "测试公司"), ("address", "∞ Street")], [], some 1⟩,
       ⟨[⟨1, "测试公司", "∞ Street"⟩], [], [], 2, 1, 1⟩) :=
  unicode_round_trip.2 DB.empty "测试公司" "∞ Street" (by decide) (by decide)
    (by decide) (by decide) (by decide) (by decide) (by decide)

/-! ### More validation-layer helper lemmas -/

theorem employee_validate_ok {db : DB} {i : Option Employee}
    {post : EmployeePost} {a b e : String} {u : Nat}
    (hf : cleanCharField "first_name" 255 post.first_name = .ok a)
    (hl : cleanCharField "last_name" 255 post.last_name = .ok b)
    (he : cleanEmailField post.email = .ok e)
    (hu : cleanUnitChoice db post.unit = .ok u)
    (hc : employeeEmailConflict db (i.map Employee.id) e = false) :
    employee_validate db i post = .ok ⟨a, b, e, u⟩ := by
  simp [employee_validate, hf, hl, he, hu, hc]

theorem employee_validate_dup {db : DB} {i : Option Employee}
    {post : EmployeePost} {a b e : String} {u : Nat}
    (hf : cleanCharField "first_name" 255 post.first_name = .ok a)
    (hl : cleanCharField "last_name" 255 post.last_name = .ok b)
    (he : cleanEmailField post.email = .ok e)
    (hu : cleanUnitChoice db post.unit = .ok u)
    (hc : employeeEmailConflict db (i.map Employee.id) e = true) :
    employee_validate db i post = .error [.DuplicateValue "email"] := by
  simp [employee_validate, hf, hl, he, hu, hc]

theorem employee_save_insert {db : DB} {v : EmployeeCleaned}
    (h : employeeEmailConflict db none v.email = false) :
    employee_save db none v = .ok { db with
      employees := db.employees ++
        [⟨db.nextEmployeeId, v.first_name, v.last_name, v.email, v.unit_id⟩],
      nextEmployeeId := db.nextEmployeeId + 1 } := by
  simp [employee_save, h]

theorem employee_save_update {d : DB} {x : Employee} {v : EmployeeCleaned}
    (h : employeeEmailConflict d (some x.id) v.email = false) :
    employee_save d (some x) v = .ok { d with
      employees := d.employees.map
        (fun y => if y.id = x.id then
          ⟨y.id, v.first_name, v.last_name, v.email, v.unit_id⟩ else y) } := by
  simp [employee_save, h]

/-! ### C1 -/

/-- C1: uniqueness with self-exclusion.  Creating a Company whose (cleaned)
name equals an existing row's name fails with DuplicateValue on `name` and
persists nothing; editing that row and resubmitting its own unchanged name
passes validation and redirects.  The same holds for Employee `email`. -/
theorem uniqueness_self_exclusion :
    (∀ (db : DB) (c : Company) (post : CompanyPost),
        c ∈ db.companies → post.name = some c.name →
        strip c.name = c.name → c.name ≠ "" → c.name.length ≤ 255 →
        company_edit db db none .POST post =
          (.Render "management/company_form.html"
            (boundCompanyForm none post [.DuplicateValue "name"]), db)) ∧
    (∀ (db : DB) (c : Company) (post : CompanyPost),
        c.id ≠ 0 → db.companies.find? (fun x => x.id == c.id) = some c →
        post.name = some c.name →
        strip c.name = c.name → c.name ≠ "" → c.name.length ≤ 255 →
        (∀ x ∈ db.companies, x.name = c.name → x.id = c.id) →
        company_edit db db (some c.id) .POST post =
          (.Redirect "company_list",
           { db with
             companies := db.companies.map (fun x =>
               if x.id = c.id then ⟨x.id, c.name, stripD post.address⟩ else x) })) ∧
    (∀ (db : DB) (x : Employee) (post : EmployeePost) (a b : String) (u : Nat),
        x ∈ db.employees →
        cleanCharField "first_name" 255 post.first_name = .ok a →
        cleanCharField "last_name" 255 post.last_name = .ok b →
        cleanEmailField post.email = .ok x.email →
        cleanUnitChoice db post.unit = .ok u →
        employee_edit db db none .POST post =
          (.Render "management/employee_form.html"
            (boundEmployeeForm none post [.DuplicateValue "email"]), db)) ∧
    (∀ (db : DB) (x : Employee) (post : EmployeePost) (a b : String) (u : Nat),
        x.id ≠ 0 → db.employees.find? (fun y => y.id == x.id) = some x →
        cleanCharField "first_name" 255 post.first_name = .ok a →
        cleanCharField "last_name" 255 post.last_name = .ok b →
        cleanEmailField post.email = .ok x.email →
        cleanUnitChoice db post.unit = .ok u →
        (∀ y ∈ db.employees, y.email = x.email → y.id = x.id) →
        employee_edit db db (some x.id) .POST post =
          (.Redirect "employee_list",
           { db with
             employees := db.employees.map (fun y =>
               if y.id = x.id then ⟨y.id, a, b, x.email, u⟩ else y) })) := by
  refine ⟨?_, ?_, ?_, ?_⟩
  · intro db c post hc hname h1 h2 h3
    have hclean : cleanCharField "name" 255 post.name = .ok c.name := by
      rw [hname]; exact cleanCharField_ok h1 h2 h3
    have hconf : companyNameConflict db none c.name = true :=
      companyNameConflict_eq_true hc (by simp)
    simp [company_edit, lookupCompany, company_validate, hclean, hconf]
  · intro db c post h0 hfind hname h1 h2 h3 huniq
    have hclean : cleanCharField "name" 255 post.name = .ok c.name := by
      rw [hname]; exact cleanCharField_ok h1 h2 h3
    have hconf : companyNameConflict db (some c.id) c.name = false :=
      companyNameConflict_eq_false (fun x hx hn => by rw [huniq x hx hn])
    have hsave := company_save_update (d := db) (c := c)
      (v := ⟨c.name, stripD post.address⟩) hconf
    simp [company_edit, lookupCompany_found h0 hfind, company_validate,
      cleanOptionalText, hclean, hconf, hsave]
  · intro db x post a b u hx hf hl he hu
    have hconf : employeeEmailConflict db none x.email = true :=
      employeeEmailConflict_eq_true hx (by simp)
    simp [employee_edit, lookupEmployee,
      employee_validate_dup (i := none) hf hl he hu hconf]
  · intro db x post a b u h0 hfind hf hl he hu huniq
    have hconf : employeeEmailConflict db (some x.id) x.email = false :=
      employeeEmailConflict_eq_false (fun y hy hn => by rw [huniq y hy hn])
    have hsave := employee_save_update (d := db) (x := x)
      (v := ⟨a, b, x.email, u⟩) hconf
    simp [employee_edit, lookupEmployee_found h0 hfind,
      employee_validate_ok (i := some x) hf hl he hu hconf, hsave]

/-- C1 witness: the "Acme" scenario of the spec — a duplicate create fails,
the self-edit succeeds — and the same on a duplicate employee email. -/
theorem uniqueness_self_exclusion_witness :
    company_edit ⟨[⟨1, "Acme", "HQ"⟩], [], [], 2, 1, 1⟩
        ⟨[⟨1, "Acme", "HQ"⟩], [], [], 2, 1, 1⟩ none .POST ⟨some "Acme", some ""⟩ =
      (.Render "management/company_form.html"
        (boundCompanyForm none ⟨some "Acme", some ""⟩ [.DuplicateValue "name"]),
       ⟨[⟨1, "Acme", "HQ"⟩], [], [], 2, 1, 1⟩) ∧
    company_edit ⟨[⟨1, "Acme", "HQ"⟩], [], [], 2, 1, 1⟩
        ⟨[⟨1, "Acme", "HQ"⟩], [], [], 2, 1, 1⟩ (some 1) .POST ⟨some "Acme", some "New St"⟩ =
      (.Redirect "company_list", ⟨[⟨1, "Acme", "New St"⟩], [], [], 2, 1, 1⟩) ∧
    employee_edit ⟨[⟨1, "Acme", "HQ"⟩], [⟨1, "HR", 1⟩], [⟨1, "John", "Doe", "jd@ex.com", 1⟩], 2, 2, 2⟩
        ⟨[⟨1, "Acme", "HQ"⟩], [⟨1, "HR", 1⟩], [⟨1, "John", "Doe", "jd@ex.com", 1⟩], 2, 2, 2⟩
        none .POST ⟨some "Jane", some "Roe", some "jd@ex.com", some "1"⟩ =
      (.Render "management/employee_form.html"
        (boundEmployeeForm none ⟨some "Jane", some "Roe", some "jd@ex.com", some "1"⟩
          [.DuplicateValue "email"]),
       ⟨[⟨1, "Acme", "HQ"⟩], [⟨1, "HR", 1⟩], [⟨1, "John", "Doe", "jd@ex.com", 1⟩], 2, 2, 2⟩) ∧
    employee_edit ⟨[⟨1, "Acme", "HQ"⟩], [⟨1, "HR", 1⟩], [⟨1, "John", "Doe", "jd@ex.com", 1⟩], 2, 2, 2⟩
        ⟨[⟨1, "Acme", "HQ"⟩], [⟨1, "HR", 1⟩], [⟨1, "John", "Doe", "jd@ex.com", 1⟩], 2, 2, 2⟩
        (some 1) .POST ⟨some "John", some "Doe", some "jd@ex.com", some "1"⟩ =
      (.Redirect "employee_list",
       ⟨[⟨1, "Acme", "HQ"⟩], [⟨1, "HR", 1⟩], [⟨1, "John", "Doe", "jd@ex.com", 1⟩], 2, 2, 2⟩) :=
  ⟨uniqueness_self_exclusion.1 ⟨[⟨1, "Acme", "HQ"⟩], [], [], 2, 1, 1⟩ ⟨1, "Acme", "HQ"⟩
      ⟨some "Acme", some ""⟩ (by decide) rfl (by decide) (by decide) (by decide),
   uniqueness_self_exclusion.2.1 ⟨[⟨1, "Acme", "HQ"⟩], [], [], 2, 1, 1⟩ ⟨1, "Acme", "HQ"⟩
      ⟨some "Acme", some "New St"⟩ (by decide) (by decide) rfl (by decide) (by decide)
      (by decide) (by decide),
   uniqueness_self_exclusion.2.2.1
      ⟨[⟨1, "Acme", "HQ"⟩], [⟨1, "HR", 1⟩], [⟨1, "John", "Doe", "jd@ex.com", 1⟩], 2, 2, 2⟩
      ⟨1, "John", "Doe", "jd@ex.com", 1⟩
      ⟨some "Jane", some "Roe", some "jd@ex.com", some "1"⟩ "Jane" "Roe" 1
      (by decide) (by decide) (by decide) (by decide) (by decide),
   uniqueness_self_exclusion.2.2.2
      ⟨[⟨1, "Acme", "HQ"⟩], [⟨1, "HR", 1⟩], [⟨1, "John", "Doe", "jd@ex.com", 1⟩], 2, 2, 2⟩
      ⟨1, "John", "Doe", "jd@ex.com", 1⟩
      ⟨some "John", some "Doe", some "jd@ex.com", some "1"⟩ "John" "Doe" 1
      (by decide) (by decide) (by decide) (by decide) (by decide) (by decide) (by decide)⟩

/-! ### C2 -/

/-- C2: a submit whose field values fail validation persists nothing — the
store after the request is exactly the store before — and re-renders the same
form template (a 200 render) with the raw submitted values preserved in each
field and the collected error set attached, in all three views; and the error
set contains every violated field's errors, not just the first. -/
theorem invalid_submit_rerenders :
    (∀ (db : DB) (pk : Option Nat) (inst : Option Company) (post : CompanyPost)
        (es : List FieldError),
        lookupCompany db pk = .ok inst →
        company_validate db inst post = .error es →
        company_edit db db pk .POST post =
          (.Render "management/company_form.html" (boundCompanyForm inst post es), db) ∧
        (boundCompanyForm inst post es).fields =
          [("name", rawValue post.name), ("address", rawValue post.address)] ∧
        (boundCompanyForm inst post es).errors = es) ∧
    (∀ (db : DB) (pk : Option Nat) (inst : Option Unit) (post : UnitPost)
        (es : List FieldError),
        lookupUnit db pk = .ok inst →
        unit_validate db inst post = .error es →
        unit_edit db db pk .POST post =
          (.Render "management/unit_form.html" (boundUnitForm inst post es), db) ∧
        (boundUnitForm inst post es).fields =
          [("name", rawValue post.name), ("company", rawValue post.company)] ∧
        (boundUnitForm inst post es).errors = es) ∧
    (∀ (db : DB) (pk : Option Nat) (inst : Option Employee) (post : EmployeePost)
        (es : List FieldError),
        lookupEmployee db pk = .ok inst →
        employee_validate db inst post = .error es →
        employee_edit db db pk .POST post =
          (.Render "management/employee_form.html" (boundEmployeeForm inst post es), db) ∧
        (boundEmployeeForm inst post es).fields =
          [("first_name", rawValue post.first_name), ("last_name", rawValue post.last_name),
           ("email", rawValue post.email), ("unit", rawValue post.unit)] ∧
        (boundEmployeeForm inst post es).errors = es) ∧
    (∀ (db : DB) (inst : Option Unit) (post : UnitPost) (es : List FieldError),
        unit_validate db inst post = .error es →
        (∀ x ∈ errsOf (cleanCharField "name" 255 post.name), x ∈ es) ∧
        (∀ x ∈ errsOf (cleanCompanyChoice db post.company), x ∈ es)) ∧
    (∀ (db : DB) (inst : Option Employee) (post : EmployeePost) (es : List FieldError),
        employee_validate db inst post = .error es →
        (∀ x ∈ errsOf (cleanCharField "first_name" 255 post.first_name), x ∈ es) ∧
        (∀ x ∈ errsOf (cleanCharField "last_name" 255 post.last_name), x ∈ es) ∧
        (∀ x ∈ errsOf (cleanEmailField post.email), x ∈ es) ∧
        (∀ x ∈ errsOf (cleanUnitChoice db post.unit), x ∈ es)) := by
  refine ⟨?_, ?_, ?_, ?_, ?_⟩
  · intro db pk inst post es h1 h2
    exact ⟨by simp [company_edit, h1, h2], rfl, rfl⟩
  · intro db pk inst post es h1 h2
    exact ⟨by simp [unit_edit, h1, h2], rfl, rfl⟩
  · intro db pk inst post es h1 h2
    exact ⟨by simp [employee_edit, h1, h2], rfl, rfl⟩
  · intro db inst post es h
    cases hn : cleanCharField "name" 255 post.name <;>
      cases hc : cleanCompanyChoice db post.company <;>
      simp only [unit_validate, hn, hc, errsOf, List.nil_append, List.append_nil,
        Except.error.injEq] at h
    all_goals first
      | exact absurd h (by simp)
      | (subst h
         refine ⟨fun x hx => ?_, fun x hx => ?_⟩ <;>
           simp [hn, hc, errsOf, List.mem_append] at hx ⊢ <;> tauto)
  · intro db inst post es h
    cases hf : cleanCharField "first_name" 255 post.first_name <;>
      cases hl : cleanCharField "last_name" 255 post.last_name <;>
      cases he : cleanEmailField post.email <;>
      cases hu : cleanUnitChoice db post.unit <;>
      simp only [employee_validate, hf, hl, he, hu, errsOf, List.nil_append,
        List.append_nil, Except.error.injEq] at h
    all_goals first
      | (subst h
         refine ⟨fun x hx => ?_, fun x hx => ?_, fun x hx => ?_, fun x hx => ?_⟩ <;>
           simp [hf, hl, he, hu, errsOf, List.mem_append] at hx ⊢ <;> tauto)
      | (refine ⟨fun x hx => ?_, fun x hx => ?_, fun x hx => ?_, fun x hx => ?_⟩ <;>
           simp [hf, hl, he, hu, errsOf] at hx)

/-- C2 witness: an employee submit violating three fields at once re-renders
with all three errors and persists nothing. -/
theorem invalid_submit_rerenders_witness :
    employee_edit ⟨[⟨1, "Acme", ""⟩], [⟨1, "HR", 1⟩], [], 2, 2, 1⟩
        ⟨[⟨1, "Acme", ""⟩], [⟨1, "HR", 1⟩], [], 2, 2, 1⟩ none .POST
        ⟨some "", some "Doe", some "not-an-email", some "9"⟩ =
      (.Render "management/employee_form.html"
        (boundEmployeeForm none ⟨some "", some "Doe", some "not-an-email", some "9"⟩
          [.RequiredFieldMissing "first_name", .InvalidFormat "email",
           .ReferenceNotFound "unit"]),
       ⟨[⟨1, "Acme", ""⟩], [⟨1, "HR", 1⟩], [], 2, 2, 1⟩) :=
  (invalid_submit_rerenders.2.2.1 ⟨[⟨1, "Acme", ""⟩], [⟨1, "HR", 1⟩], [], 2, 2, 1⟩
    none none ⟨some "", some "Doe", some "not-an-email", some "9"⟩
    [.RequiredFieldMissing "first_name", .InvalidFormat "email",
     .ReferenceNotFound "unit"] (by decide) (by decide)).1

/-! ### C6 -/

/-- Every error a CharField cleaning can produce names its own field. -/
theorem cleanCharField_errs {f : String} {n : Nat} {r : Option String} :
    ∀ x ∈ errsOf (cleanCharField f n r),
      x = FieldError.RequiredFieldMissing f ∨ x = FieldError.FieldTooLong f n := by
  intro x hx
  rw [cleanCharField] at hx
  split at hx
  · simp [errsOf] at hx
    simp [hx]
  · split at hx
    · simp [errsOf] at hx
      simp [hx]
    · simp [errsOf] at hx

/-- An empty-or-missing submitted value strips to the empty string. -/
theorem stripD_of_blank {raw : Option String}
    (h : raw = none ∨ raw = some "") : stripD raw = "" := by
  rcases h with h | h <;> rw [h] <;> rfl

/-- C6: submitting with a required field empty or missing (Company `name`;
Unit `name`, `company`; Employee `first_name`, `last_name`, `email`, `unit`)
re-renders with the RequiredFieldMissing message attached to exactly that
field, persisting nothing (when the other fields are valid, that message is
the only error); the optional Company `address` may be empty or missing
without producing any error. -/
theorem required_fields_enforced :
    (∀ (db : DB) (pk : Option Nat) (inst : Option Company) (post : CompanyPost),
        lookupCompany db pk = .ok inst →
        (post.name = none ∨ post.name = some "") →
        company_edit db db pk .POST post =
          (.Render "management/company_form.html"
            (boundCompanyForm inst post [.RequiredFieldMissing "name"]), db)) ∧
    (∀ (db : DB) (pk : Option Nat) (inst : Option Unit) (post : UnitPost) (cid : Nat),
        lookupUnit db pk = .ok inst →
        (post.name = none ∨ post.name = some "") →
        cleanCompanyChoice db post.company = .ok cid →
        unit_edit db db pk .POST post =
          (.Render "management/unit_form.html"
            (boundUnitForm inst post [.RequiredFieldMissing "name"]), db)) ∧
    (∀ (db : DB) (pk : Option Nat) (inst : Option Unit) (post : UnitPost) (n : String),
        lookupUnit db pk = .ok inst →
        cleanCharField "name" 255 post.name = .ok n →
        (post.company = none ∨ post.company = some "") →
        unit_edit db db pk .POST post =
          (.Render "management/unit_form.html"
            (boundUnitForm inst post [.RequiredFieldMissing "company"]), db)) ∧
    (∀ (db : DB) (pk : Option Nat) (inst : Option Employee) (post : EmployeePost)
        (b e : String) (u : Nat),
        lookupEmployee db pk = .ok inst →
        (post.first_name = none ∨ post.first_name = some "") →
        cleanCharField "last_name" 255 post.last_name = .ok b →
        cleanEmailField post.email = .ok e →
        cleanUnitChoice db post.unit = .ok u →
        employeeEmailConflict db (inst.map Employee.id) e = false →
        employee_edit db db pk .POST post =
          (.Render "management/employee_form.html"
            (boundEmployeeForm inst post [.RequiredFieldMissing "first_name"]), db)) ∧
    (∀ (db : DB) (pk : Option Nat) (inst : Option Employee) (post : EmployeePost)
        (a e : String) (u : Nat),
        lookupEmployee db pk = .ok inst →
        cleanCharField "first_name" 255 post.first_name = .ok a →
        (post.last_name = none ∨ post.last_name = some "") →
        cleanEmailField post.email = .ok e →
        cleanUnitChoice db post.unit = .ok u →
        employeeEmailConflict db (inst.map Employee.id) e = false →
        employee_edit db db pk .POST post =
          (.Render "management/employee_form.html"
            (boundEmployeeForm inst post [.RequiredFieldMissing "last_name"]), db)) ∧
    (∀ (db : DB) (pk : Option Nat) (inst : Option Employee) (post : EmployeePost)
        (a b : String) (u : Nat),
        lookupEmployee db pk = .ok inst →
        cleanCharField "first_name" 255 post.first_name = .ok a →
        cleanCharField "last_name" 255 post.last_name = .ok b →
        (post.email = none ∨ post.email = some "") →
        cleanUnitChoice db post.unit = .ok u →
        employee_edit db db pk .POST post =
          (.Render "management/employee_form.html"
            (boundEmployeeForm inst post [.RequiredFieldMissing "email"]), db)) ∧
    (∀ (db : DB) (pk : Option Nat) (inst : Option Employee) (post : EmployeePost)
        (a b e : String),
        lookupEmployee db pk = .ok inst →
        cleanCharField "first_name" 255 post.first_name = .ok a →
        cleanCharField "last_name" 255 post.last_name = .ok b →
        cleanEmailField post.email = .ok e →
        (post.unit = none ∨ post.unit = some "") →
        employeeEmailConflict db (inst.map Employee.id) e = false →
        employee_edit db db pk .POST post =
          (.Render "management/employee_form.html"
            (boundEmployeeForm inst post [.RequiredFieldMissing "unit"]), db)) ∧
    (∀ (db : DB) (inst : Option Company) (post : CompanyPost),
        (post.address = none ∨ post.address = some "") →
        ∀ x ∈ errsOf (company_validate db inst post),
          x ≠ FieldError.RequiredFieldMissing "address") ∧
    (∀ (db : DB) (inst : Option Company) (s : String),
        strip s = s → s ≠ "" → s.length ≤ 255 →
        companyNameConflict db (inst.map Company.id) s = false →
        company_validate db inst ⟨some s, none⟩ = .ok ⟨s, ""⟩) := by
  refine ⟨?_, ?_, ?_, ?_, ?_, ?_, ?_, ?_, ?_⟩
  · intro db pk inst post h1 h2
    have hclean := cleanCharField_required (f := "name") (n := 255) (stripD_of_blank h2)
    simp [company_edit, h1, company_validate, hclean]
  · intro db pk inst post cid h1 h2 h3
    have hclean := cleanCharField_required (f := "name") (n := 255) (stripD_of_blank h2)
    simp [unit_edit, h1, unit_validate, hclean, h3, errsOf]
  · intro db pk inst post n h1 h2 h3
    have hcomp : cleanCompanyChoice db post.company =
        .error [.RequiredFieldMissing "company"] := by
      rcases h3 with h3 | h3 <;> rw [cleanCompanyChoice, h3] <;> rfl
    simp [unit_edit, h1, unit_validate, h2, hcomp, errsOf]
  · intro db pk inst post b e u h1 h2 hl he hu hc
    have hf := cleanCharField_required (f := "first_name") (n := 255) (stripD_of_blank h2)
    simp [employee_edit, h1, employee_validate, hf, hl, he, hu, hc, errsOf]
  · intro db pk inst post a e u h1 hf h2 he hu hc
    have hl := cleanCharField_required (f := "last_name") (n := 255) (stripD_of_blank h2)
    simp [employee_edit, h1, employee_validate, hf, hl, he, hu, hc, errsOf]
  · intro db pk inst post a b u h1 hf hl h2 hu
    have he : cleanEmailField post.email = .error [.RequiredFieldMissing "email"] := by
      rw [cleanEmailField, stripD_of_blank h2]
      rfl
    simp [employee_edit, h1, employee_validate, hf, hl, he, hu, errsOf]
  · intro db pk inst post a b e h1 hf hl he h2 hc
    have hu : cleanUnitChoice db post.unit =
        .error [.RequiredFieldMissing "unit"] := by
      rcases h2 with h2 | h2 <;> rw [cleanUnitChoice, h2] <;> rfl
    simp [employee_edit, h1, employee_validate, hf, hl, he, hu, hc, errsOf]
  · intro db inst post _ x hx
    rcases hn : cleanCharField "name" 255 post.name with e1 | v
    · simp only [company_validate, hn, errsOf] at hx
      rcases cleanCharField_errs (f := "name") (n := 255) (r := post.name) x
        (by simpa [hn, errsOf] using hx) with h | h <;> simp [h]
    · simp only [company_validate, hn] at hx
      by_cases hcf : companyNameConflict db (Option.map Company.id inst) v = true
      · simp only [hcf, if_true, errsOf, List.mem_singleton] at hx
        simp [hx]
      · simp [hcf, errsOf] at hx
  · intro db inst s h1 h2 h3 h4
    exact company_validate_ok h1 h2 h3 h4

/-- C6 witness: each entity form rejects an empty required field with exactly
that field's RequiredFieldMissing message, while an empty optional address is
accepted. -/
theorem required_fields_enforced_witness :
    company_edit ⟨[], [], [], 1, 1, 1⟩ ⟨[], [], [], 1, 1, 1⟩ none .POST ⟨some "", some "x"⟩ =
      (.Render "management/company_form.html"
        (boundCompanyForm none ⟨some "", some "x"⟩ [.RequiredFieldMissing "name"]),
       ⟨[], [], [], 1, 1, 1⟩) ∧
    unit_edit ⟨[⟨1, "Acme", ""⟩], [], [], 2, 1, 1⟩ ⟨[⟨1, "Acme", ""⟩], [], [], 2, 1, 1⟩
        none .POST ⟨none, some "1"⟩ =
      (.Render "management/unit_form.html"
        (boundUnitForm none ⟨none, some "1"⟩ [.RequiredFieldMissing "name"]),
       ⟨[⟨1, "Acme", ""⟩], [], [], 2, 1, 1⟩) ∧
    unit_edit ⟨[⟨1, "Acme", ""⟩], [], [], 2, 1, 1⟩ ⟨[⟨1, "Acme", ""⟩], [], [], 2, 1, 1⟩
        none .POST ⟨some "HR", none⟩ =
      (.Render "management/unit_form.html"
        (boundUnitForm none ⟨some "HR", none⟩ [.RequiredFieldMissing "company"]),
       ⟨[⟨1, "Acme", ""⟩], [], [], 2, 1, 1⟩) ∧
    employee_edit ⟨[⟨1, "Acme", ""⟩], [⟨1, "HR", 1⟩], [], 2, 2, 1⟩
        ⟨[⟨1, "Acme", ""⟩], [⟨1, "HR", 1⟩], [], 2, 2, 1⟩ none .POST
        ⟨some "John", some "Doe", some "", some "1"⟩ =
      (.Render "management/employee_form.html"
        (boundEmployeeForm none ⟨some "John", some "Doe", some "", some "1"⟩
          [.RequiredFieldMissing "email"]),
       ⟨[⟨1, "Acme", ""⟩], [⟨1, "HR", 1⟩], [], 2, 2, 1⟩) ∧
    company_validate ⟨[], [], [], 1, 1, 1⟩ none ⟨some "Acme", none⟩ =
      .ok ⟨"Acme", ""⟩ :=
  ⟨required_fields_enforced.1 ⟨[], [], [], 1, 1, 1⟩ none none ⟨some "", some "x"⟩
      (by decide) (Or.inr rfl),
   required_fields_enforced.2.1 ⟨[⟨1, "Acme", ""⟩], [], [], 2, 1, 1⟩ none none
      ⟨none, some "1"⟩ 1 (by decide) (Or.inl rfl) (by decide),
   required_fields_enforced.2.2.1 ⟨[⟨1, "Acme", ""⟩], [], [], 2, 1, 1⟩ none none
      ⟨some "HR", none⟩ "HR" (by decide) (by decide) (Or.inl rfl),
   required_fields_enforced.2.2.2.2.2.1 ⟨[⟨1, "Acme", ""⟩], [⟨1, "HR", 1⟩], [], 2, 2, 1⟩
      none none ⟨some "John", some "Doe", some "", some "1"⟩ "John" "Doe" 1
      (by decide) (by decide) (by decide) (Or.inr rfl) (by decide),
   required_fields_enforced.2.2.2.2.2.2.2.2 ⟨[], [], [], 1, 1, 1⟩ none "Acme"
      (by decide) (by decide) (by decide) (by decide)⟩

/-! ### C7 -/

/-- A resolved company choice names an existing row. -/
theorem cleanCompanyChoice_resolves {db : DB} {raw : Option String} {n : Nat}
    (h : cleanCompanyChoice db raw = .ok n) : ∃ c ∈ db.companies, c.id = n := by
  simp only [cleanCompanyChoice] at h
  by_cases hv : rawValue raw = ""
  · rw [if_pos hv] at h
    exact absurd h (by simp)
  · rw [if_neg hv] at h
    rcases hp : parseNat? (rawValue raw) with _ | k <;> simp only [hp] at h
    · exact absurd h (by simp)
    · by_cases hany : db.companies.any (fun c => c.id == k) = true
      · rw [if_pos hany] at h
        cases h
        obtain ⟨c, hc, hck⟩ := List.any_eq_true.mp hany
        exact ⟨c, hc, by simpa using hck⟩
      · rw [if_neg hany] at h
        exact absurd h (by simp)

/-- A resolved unit choice names an existing row. -/
theorem cleanUnitChoice_resolves {db : DB} {raw : Option String} {n : Nat}
    (h : cleanUnitChoice db raw = .ok n) : ∃ u ∈ db.units, u.id = n := by
  simp only [cleanUnitChoice] at h
  by_cases hv : rawValue raw = ""
  · rw [if_pos hv] at h
    exact absurd h (by simp)
  · rw [if_neg hv] at h
    rcases hp : parseNat? (rawValue raw) with _ | k <;> simp only [hp] at h
    · exact absurd h (by simp)
    · by_cases hany : db.units.any (fun u => u.id == k) = true
      · rw [if_pos hany] at h
        cases h
        obtain ⟨u, hu, huk⟩ := List.any_eq_true.mp hany
        exact ⟨u, hu, by simpa using huk⟩
      · rw [if_neg hany] at h
        exact absurd h (by simp)

/-- A valid unit form references an existing company. -/
theorem unit_validate_resolves {db : DB} {inst : Option Unit} {post : UnitPost}
    {v : UnitCleaned} (h : unit_validate db inst post = .ok v) :
    ∃ c ∈ db.companies, c.id = v.company_id := by
  cases hn : cleanCharField "name" 255 post.name <;>
    cases hc : cleanCompanyChoice db post.company <;>
    simp only [unit_validate, hn, hc] at h
  all_goals cases h
  exact cleanCompanyChoice_resolves hc

/-- A valid employee form references an existing unit. -/
theorem employee_validate_resolves {db : DB} {inst : Option Employee}
    {post : EmployeePost} {v : EmployeeCleaned}
    (h : employee_validate db inst post = .ok v) :
    ∃ u ∈ db.units, u.id = v.unit_id := by
  cases hf : cleanCharField "first_name" 255 post.first_name <;>
    cases hl : cleanCharField "last_name" 255 post.last_name <;>
    cases he : cleanEmailField post.email <;>
    cases hu : cleanUnitChoice db post.unit <;>
    simp only [employee_validate, hf, hl, he, hu] at h
  all_goals try cases h
  split at h
  all_goals cases h
  exact cleanUnitChoice_resolves hu

/-- A successful company save keeps referential integrity: the company table
only gains a row or has a row rewritten in place under its own id. -/
theorem refIntact_company_save {db db2 : DB} {inst : Option Company}
    {v : CompanyCleaned} (h : refIntact db)
    (hs : company_save db inst v = .ok db2) : refIntact db2 := by
  obtain ⟨hu, he⟩ := h
  cases inst with
  | none =>
      rw [company_save] at hs
      split at hs
      · cases hs
      · cases hs
        refine ⟨fun u hu2 => ?_, he⟩
        obtain ⟨c, hc, hid⟩ := hu u hu2
        exact ⟨c, List.mem_append_left _ hc, hid⟩
  | some c0 =>
      rw [company_save] at hs
      split at hs
      · cases hs
      · cases hs
        refine ⟨fun u hu2 => ?_, he⟩
        obtain ⟨c, hc, hid⟩ := hu u hu2
        refine ⟨if c.id = c0.id then ⟨c.id, v.name, v.address⟩ else c,
          ?_, by split <;> exact hid⟩
        show _ ∈ db.companies.map (fun x : Company =>
          if x.id = c0.id then (⟨x.id, v.name, v.address⟩ : Company) else x)
        exact List.mem_map_of_mem _ hc

/-- A unit save against a store whose referenced company exists keeps
referential integrity. -/
theorem refIntact_unit_save {db : DB} {inst : Option Unit} {v : UnitCleaned}
    (h : refIntact db) (hv : ∃ c ∈ db.companies, c.id = v.company_id) :
    refIntact (unit_save db inst v) := by
  obtain ⟨hu, he⟩ := h
  cases inst with
  | none =>
      refine ⟨fun u hu2 => ?_, fun e he2 => ?_⟩
      · rcases List.mem_append.mp hu2 with h2 | h2
        · exact hu u h2
        · simp at h2
          rw [h2]
          exact hv
      · obtain ⟨u, hmem, hid⟩ := he e he2
        exact ⟨u, List.mem_append_left _ hmem, hid⟩
  | some u0 =>
      refine ⟨fun u hu2 => ?_, fun e he2 => ?_⟩
      · obtain ⟨u1, hu1, hfu⟩ := List.mem_map.mp hu2
        by_cases hid : u1.id = u0.id
        · rw [← hfu]
          simp only [hid, if_true]
          exact hv
        · rw [← hfu]
          simp only [hid, if_false]
          exact hu u1 hu1
      · obtain ⟨u, hmem, hid⟩ := he e he2
        refine ⟨if u.id = u0.id then ⟨u.id, v.name, v.company_id⟩ else u, ?_,
          by split <;> exact hid⟩
        show _ ∈ db.units.map (fun x : Unit =>
          if x.id = u0.id then (⟨x.id, v.name, v.company_id⟩ : Unit) else x)
        exact List.mem_map_of_mem _ hmem

/-- A successful employee save against a store whose referenced unit exists
keeps referential integrity. -/
theorem refIntact_employee_save {db db2 : DB} {inst : Option Employee}
    {v : EmployeeCleaned} (h : refIntact db)
    (hv : ∃ u ∈ db.units, u.id = v.unit_id)
    (hs : employee_save db inst v = .ok db2) : refIntact db2 := by
  obtain ⟨hu, he⟩ := h
  cases inst with
  | none =>
      rw [employee_save] at hs
      split at hs
      · cases hs
      · cases hs
        refine ⟨hu, fun e he2 => ?_⟩
        rcases List.mem_append.mp he2 with h2 | h2
        · exact he e h2
        · simp at h2
          rw [h2]
          exact hv
  | some e0 =>
      rw [employee_save] at hs
      split at hs
      · cases hs
      · cases hs
        refine ⟨hu, fun e he2 => ?_⟩
        obtain ⟨e1, he1, hfe⟩ := List.mem_map.mp he2
        by_cases hid : e1.id = e0.id
        · rw [← hfe]
          simp only [hid, if_true]
          exact hv
        · rw [← hfe]
          simp only [hid, if_false]
          exact he e1 he1

/-- Company deletion cascades and keeps referential integrity. -/
theorem refIntact_company_delete {db : DB} (pk : Nat) (h : refIntact db) :
    refIntact (company_delete db pk) := by
  obtain ⟨hu, he⟩ := h
  refine ⟨fun u hu2 => ?_, fun e he2 => ?_⟩
  · obtain ⟨hmem, hne⟩ := List.mem_filter.mp hu2
    obtain ⟨c, hc, hid⟩ := hu u hmem
    refine ⟨c, List.mem_filter.mpr ⟨hc, ?_⟩, hid⟩
    simp only [bne_iff_ne] at hne ⊢
    rw [hid]
    exact hne
  · obtain ⟨hmem, hkeep⟩ := List.mem_filter.mp he2
    obtain ⟨u, hum, hid⟩ := he e hmem
    have hany : db.units.any (fun x => x.id == e.unit_id && x.company_id == pk) = false := by
      simpa using hkeep
    have hnotpk : u.company_id ≠ pk := by
      intro hc
      have hpos : db.units.any (fun x => x.id == e.unit_id && x.company_id == pk) = true :=
        List.any_eq_true.mpr ⟨u, hum, by simp [hid, hc]⟩
      rw [hany] at hpos
      cases hpos
    exact ⟨u, List.mem_filter.mpr ⟨hum, by simpa using hnotpk⟩, hid⟩

/-- Unit deletion cascades and keeps referential integrity. -/
theorem refIntact_unit_delete {db : DB} (pk : Nat) (h : refIntact db) :
    refIntact (unit_delete db pk) := by
  obtain ⟨hu, he⟩ := h
  refine ⟨fun u hu2 => ?_, fun e he2 => ?_⟩
  · exact hu u (List.mem_filter.mp hu2).1
  · obtain ⟨hmem, hne⟩ := List.mem_filter.mp he2
    obtain ⟨u, hum, hid⟩ := he e hmem
    refine ⟨u, List.mem_filter.mpr ⟨hum, ?_⟩, hid⟩
    simp only [bne_iff_ne] at hne ⊢
    rw [hid]
    exact hne

/-- Employee deletion keeps referential integrity. -/
theorem refIntact_employee_delete {db : DB} (pk : Nat) (h : refIntact db) :
    refIntact (employee_delete db pk) :=
  ⟨h.1, fun e he2 => h.2 e (List.mem_filter.mp he2).1⟩

/-- Every reachable store is referentially intact. -/
theorem refIntact_reachable {db : DB} (h : Reachable db) : refIntact db := by
  induction h with
  | init => exact ⟨by simp [DB.empty], by simp [DB.empty]⟩
  | company_step db pk m post hr ih =>
      cases hl : lookupCompany db pk with
      | error e => simpa [company_edit, hl] using ih
      | ok inst =>
          cases m with
          | GET => simpa [company_edit, hl] using ih
          | POST =>
              cases hv : company_validate db inst post with
              | error es => simpa [company_edit, hl, hv] using ih
              | ok v =>
                  cases hs : company_save db inst v with
                  | error e => simpa [company_edit, hl, hv, hs] using ih
                  | ok db2 =>
                      simpa [company_edit, hl, hv, hs] using
                        refIntact_company_save ih hs
  | unit_step db pk m post hr ih =>
      cases hl : lookupUnit db pk with
      | error e => simpa [unit_edit, hl] using ih
      | ok inst =>
          cases m with
          | GET => simpa [unit_edit, hl] using ih
          | POST =>
              cases hv : unit_validate db inst post with
              | error es => simpa [unit_edit, hl, hv] using ih
              | ok v =>
                  simpa [unit_edit, hl, hv] using
                    refIntact_unit_save ih (unit_validate_resolves hv)
  | employee_step db pk m post hr ih =>
      cases hl : lookupEmployee db pk with
      | error e => simpa [employee_edit, hl] using ih
      | ok inst =>
          cases m with
          | GET => simpa [employee_edit, hl] using ih
          | POST =>
              cases hv : employee_validate db inst post with
              | error es => simpa [employee_edit, hl, hv] using ih
              | ok v =>
                  cases hs : employee_save db inst v with
                  | error e => simpa [employee_edit, hl, hv, hs] using ih
                  | ok db2 =>
                      simpa [employee_edit, hl, hv, hs] using
                        refIntact_employee_save ih (employee_validate_resolves hv) hs
  | company_del db pk hr ih => exact refIntact_company_delete pk ih
  | unit_del db pk hr ih => exact refIntact_unit_delete pk ih
  | employee_del db pk hr ih => exact refIntact_employee_delete pk ih

/-- C7: in every reachable store each Unit references an existing Company and
each Employee an existing Unit; deleting a Company removes every Unit it owns
and, transitively, every Employee of one of those Units (likewise a Unit's
Employees on unit deletion); and all three deletions preserve referential
integrity, so no orphaned child rows exist after any delete. -/
theorem cascade_ownership :
    (∀ db : DB, Reachable db → refIntact db) ∧
    (∀ (db : DB) (pk : Nat), ∀ u ∈ (company_delete db pk).units, u.company_id ≠ pk) ∧
    (∀ (db : DB) (pk : Nat), ∀ e ∈ (company_delete db pk).employees,
        ∀ u ∈ db.units, u.id = e.unit_id → u.company_id ≠ pk) ∧
    (∀ (db : DB) (pk : Nat), ∀ e ∈ (unit_delete db pk).employees, e.unit_id ≠ pk) ∧
    (∀ (db : DB) (pk : Nat), refIntact db → refIntact (company_delete db pk)) ∧
    (∀ (db : DB) (pk : Nat), refIntact db → refIntact (unit_delete db pk)) ∧
    (∀ (db : DB) (pk : Nat), refIntact db → refIntact (employee_delete db pk)) := by
  refine ⟨fun db h => refIntact_reachable h, ?_, ?_, ?_,
    fun db pk h => refIntact_company_delete pk h,
    fun db pk h => refIntact_unit_delete pk h,
    fun db pk h => refIntact_employee_delete pk h⟩
  · intro db pk u hu
    have := (List.mem_filter.mp hu).2
    simpa using this
  · intro db pk e he u hu hid hpk
    have hkeep := (List.mem_filter.mp he).2
    have hany : db.units.any (fun x => x.id == e.unit_id && x.company_id == pk) = false := by
      simpa using hkeep
    have hpos : db.units.any (fun x => x.id == e.unit_id && x.company_id == pk) = true :=
      List.any_eq_true.mpr ⟨u, hu, by simp [hid, hpk]⟩
    rw [hany] at hpos
    cases hpos
  · intro db pk e he
    have := (List.mem_filter.mp he).2
    simpa using this

/-- C7 witness: a fresh deployment is intact; deleting company 1 from a
two-company store removes its unit and that unit's employee while the intact
invariant is preserved. -/
theorem cascade_ownership_witness :
    refIntact DB.empty ∧
    (∀ u ∈ (company_delete ⟨[⟨1, "A", ""⟩, ⟨2, "B", ""⟩], [⟨1, "HR", 1⟩, ⟨2, "IT", 2⟩],
        [⟨1, "J", "D", "j@e.com", 1⟩, ⟨2, "K", "L", "k@e.com", 2⟩], 3, 3, 3⟩ 1).units,
      u.company_id ≠ 1) ∧
    refIntact (company_delete ⟨[⟨1, "A", ""⟩, ⟨2, "B", ""⟩], [⟨1, "HR", 1⟩, ⟨2, "IT", 2⟩],
        [⟨1, "J", "D", "j@e.com", 1⟩, ⟨2, "K", "L", "k@e.com", 2⟩], 3, 3, 3⟩ 1) :=
  ⟨cascade_ownership.1 DB.empty Reachable.init,
   cascade_ownership.2.1 ⟨[⟨1, "A", ""⟩, ⟨2, "B", ""⟩], [⟨1, "HR", 1⟩, ⟨2, "IT", 2⟩],
      [⟨1, "J", "D", "j@e.com", 1⟩, ⟨2, "K", "L", "k@e.com", 2⟩], 3, 3, 3⟩ 1,
   cascade_ownership.2.2.2.2.1 ⟨[⟨1, "A", ""⟩, ⟨2, "B", ""⟩], [⟨1, "HR", 1⟩, ⟨2, "IT", 2⟩],
      [⟨1, "J", "D", "j@e.com", 1⟩, ⟨2, "K", "L", "k@e.com", 2⟩], 3, 3, 3⟩ 1
      ⟨by decide, by decide⟩⟩

end CompanyMgmt
